import Mathlib

/-!
# Verification of the rae_text glyph-atlas pipeline

Shallow embedding of `src/font.rs` and `src/text_renderer.rs`.

Modelling conventions:
* `f32` values are embedded as `ℚ` (the claims under check are about the exact
  formulas the code computes; every operation involved — sums, `x / 64.0`,
  `gw / W` — is modelled by exact rational arithmetic).
* The `u16` cast `(i * 4) as MeshIndex` is modelled exactly as `(4 * i) % 65536`
  (`gfx::MeshIndex` is the 16-bit index type matching the pipeline's
  `IndexFormat::Uint16`).  Wider casts (`usize`/`u32`/`isize`) whose wrap is
  unreachable for any allocatable glyph count are modelled as `Nat`.
* Fallible operations (`unwrap` panics, `HashMap` indexing panics) are embedded
  as `Except`/`Option` failures.
* The FreeType face and the HarfBuzz shaper are external collaborators; they are
  modelled at their interface: a face maps a character to an optional rendered
  glyph (bitmap + left/top bearing) and to its native glyph id; a shaped run is
  a list of `{glyph_id, advances, offsets}` records in 26.6 fixed point.
-/

namespace RaeText

/-- An 8-bit coverage bitmap as reported by the rasterization collaborator:
`width`, `rows`, and the packed pixel buffer of length `width * rows`
(row-major, stride = `width`). -/
structure Bitmap where
  width : Nat
  rows : Nat
  buffer : List Nat
  deriving Repr, DecidableEq

/-- The data the face's glyph slot exposes after `load_char(c, RENDER)`:
the rendered bitmap and the left/top bearings. -/
structure FtGlyph where
  bitmap : Bitmap
  left : Int
  top : Int
  deriving Repr, DecidableEq

/-- Model of the font-rasterization collaborator's face handle (external
interface): `loadChar` is `load_char` + reading the glyph slot (`none` models a
FreeType error, which the code unwraps into a panic); `charIndex` is the face's
native character → glyph-id mapping (`FT_Get_Char_Index`, the id the shaping
engine emits when shaping that character). -/
structure Face where
  loadChar : Nat → Option FtGlyph
  charIndex : Nat → Nat

/-- One entry of the shaping engine's output: glyph id plus advances and
offsets in 26.6 fixed point (model of `hb::GlyphPosition` zipped with
`hb::GlyphInfo`, whose `codepoint` field holds the glyph id after shaping). -/
structure ShapedGlyph where
  glyphId : Nat
  xAdvance : Int
  yAdvance : Int
  xOffset : Int
  yOffset : Int
  deriving Repr, DecidableEq

/-- A mesh vertex: 2D position and 3D texture coordinates
(`Vertex { position: [f32; 2], texture_coordinates: [f32; 3] }`). -/
structure Vertex where
  position : ℚ × ℚ
  textureCoordinates : ℚ × ℚ × ℚ
  deriving Repr, DecidableEq

/-- `gfx::ColorF32`: an RGBA color. -/
abbrev ColorF32 := ℚ × ℚ × ℚ × ℚ

/-- `gfx::ColorF32::WHITE` — opaque white. -/
def WHITE : ColorF32 := (1, 1, 1, 1)

/-- Modelled from the spec: `i26dot6_to_fpoint`, referenced by
`text_renderer.rs` via `use super::i26dot6_to_fpoint` but defined in a module
that is not under `src/`.  Spec 4.5: `pixels = fixed26_6 / 64.0`.  `font.rs`
inlines the same expression (`position.x_offset as f32 / 64.`). -/
def i26dot6_to_fpoint (x : Int) : ℚ := (x : ℚ) / 64

/-- Last-write-wins lookup in an insertion-ordered association list; models
`HashMap` lookup where `insert` on an existing key overwrites (later list
entries are later insertions). -/
def lookupLast {α : Type} (m : List (Nat × α)) (k : Nat) : Option α :=
  match m with
  | [] => none
  | (c, v) :: rest =>
    match lookupLast rest k with
    | some r => some r
    | none => if c = k then some v else none

/-- `iterator::max()` (`none` on an empty iterator, which the code unwraps). -/
def listMax : List Nat → Option Nat
  | [] => none
  | a :: as => match listMax as with
    | none => some a
    | some b => some (max a b)

namespace font

/-- `Font::RESOLUTION`. -/
def RESOLUTION : Nat := 300

/-- The glyph-loading loop of `Font::new`: for each `c` in `characters`,
`load_char(c, RENDER).unwrap()` then push `(*c as u32, glyph().bitmap())`.
Note the key pushed is the character's code point, not `charIndex c`. -/
def loadGlyphs (face : Face) : List Nat → Except Unit (List (Nat × Bitmap))
  | [] => .ok []
  | c :: cs =>
    match face.loadChar c with
    | none => .error ()
    | some g =>
      match loadGlyphs face cs with
      | .error e => .error e
      | .ok rest => .ok ((c, g.bitmap) :: rest)

/-- The six mesh indices emitted for glyph `i`:
`vertices_begin = (i * 4) as MeshIndex` (a `u16` cast, hence mod 2^16) followed
by `[vb, vb+1, vb+3, vb+3, vb+1, vb+2]` (the `+1/+2/+3` cannot wrap since
`vb % 4 = 0`). -/
def glyphIndices (i : Nat) : List Nat :=
  let vb := (4 * i) % 65536
  [vb, vb + 1, vb + 3, vb + 3, vb + 1, vb + 2]

/-- The four vertices emitted for glyph `i` with bitmap `g` in an atlas of
extent `(W, H, _)`: quad `(0,0)–(gw,gh)` with texture coordinates
`(0,0), (0,th), (tw,th), (tw,0)` (`tw = gw / W`, `th = gh / H`) and layer
coordinate `i`. -/
def glyphVertices (W H i : Nat) (g : Bitmap) : List Vertex :=
  let gw : ℚ := g.width
  let gh : ℚ := g.rows
  let tw : ℚ := gw / (W : ℚ)
  let th : ℚ := gh / (H : ℚ)
  let idx : ℚ := i
  [⟨(0, 0), (0, 0, idx)⟩,
   ⟨(0, gh), (0, th, idx)⟩,
   ⟨(gw, gh), (tw, th, idx)⟩,
   ⟨(gw, 0), (tw, 0, idx)⟩]

/-- One pass of the `for (i, (c, g)) in glyphs.into_iter().enumerate()` loop of
`Font::new`, restricted to its three pure accumulations: the vertex list, the
index list, and the glyph-map insertion list `(c, indices_begin, indices_end)`
with `indices_begin = i * 6` and `indices_end = indices_begin + 6`. -/
def buildAtlasParts (W H : Nat) : Nat → List (Nat × Bitmap) →
    List Vertex × List Nat × List (Nat × Nat × Nat)
  | _, [] => ([], [], [])
  | i, (c, g) :: gs =>
    let rest := buildAtlasParts W H (i + 1) gs
    (glyphVertices W H i g ++ rest.1,
     glyphIndices i ++ rest.2.1,
     (c, 6 * i, 6 * i + 6) :: rest.2.2)

/-- `buf[start..start + src.length].copy_from_slice(src)` (the in-range case;
`Font::new` only copies `g.width() * g.rows()` bytes at offset
`i * slice_byte_count`, which is always in range). -/
def writeBytes (buf : List Nat) (start : Nat) (src : List Nat) : List Nat :=
  buf.take start ++ src ++ buf.drop (start + src.length)

/-- The atlas-buffer fill of the `Font::new` loop: for glyph `i`,
`range_begin = i * glyph_atlas_slice_byte_count`,
`range_end = range_begin + (g.width() * g.rows())`, and the glyph's packed
buffer is copied into `glyph_atlas_buffer[range_begin..range_end]` as a single
contiguous copy. -/
def fillAtlasBuffer (sliceBytes : Nat) : Nat → List Nat → List (Nat × Bitmap) → List Nat
  | _, buf, [] => buf
  | i, buf, (_, g) :: gs =>
    fillAtlasBuffer sliceBytes (i + 1) (writeBytes buf (i * sliceBytes) g.buffer) gs

/-- The panics `Font::new` can hit before reaching any GPU call: a
`load_char(..).unwrap()` failure, or the `.max().unwrap()` over an empty glyph
list (the empty-character-set case). -/
inductive FontNewErr where
  | loadCharPanic (c : Nat)
  | emptyMaxPanic
  deriving Repr, DecidableEq

/-- The GPU commands `Font::new` issues, in order, all after the pure phase. -/
inductive GpuCmd where
  | createTexture (width height depth : Nat)
  | writeTexture (bytesPerRow rowsPerImage : Nat) (data : List Nat)
  | createTextureView
  | createSampler
  | createBindGroup
  | createMesh (vertexData : List Vertex) (indexData : List Nat)
  deriving Repr, DecidableEq

/-- The `Font` aggregate built by `Font::new` (its pure contents). -/
structure Font where
  size : Nat
  /-- The arguments passed to `ft_face.set_char_size` : `(0, size, 0, RESOLUTION)`. -/
  charSizeReq : Nat × Nat × Nat × Nat
  /-- The value passed to `hb_font.set_ppem`: `size * RESOLUTION / 72`. -/
  hbPpem : Nat
  glyphAtlasExtent : Nat × Nat × Nat
  glyphAtlasBuffer : List Nat
  vertices : List Vertex
  indices : List Nat
  /-- `glyph_map` insertions in iteration order (`HashMap`: last write wins). -/
  glyphMapList : List (Nat × Nat × Nat)
  deriving Repr, DecidableEq

instance : Inhabited Font := ⟨⟨0, (0, 0, 0, 0), 0, (0, 0, 0), [], [], [], []⟩⟩

/-- `Font::new` (src/font.rs).  Returns the GPU commands issued and the
constructed `Font`, or the panic hit on the failure paths (on which no GPU
command has been issued: every GPU call in the source comes after the glyph
loop and the extent computation). -/
def Font.new (face : Face) (size : Nat) (characters : List Nat) :
    List GpuCmd × Except FontNewErr Font :=
  let ppem := size * RESOLUTION / 72
  match loadGlyphs face characters with
  | .error _ => ([], .error (.loadCharPanic 0))
  | .ok glyphs =>
    match listMax (glyphs.map fun x => x.2.width) with
    | none => ([], .error .emptyMaxPanic)
    | some W =>
      match listMax (glyphs.map fun x => x.2.rows) with
      | none => ([], .error .emptyMaxPanic)
      | some H =>
        let D := characters.length
        let sliceBytes := W * H
        let byteCount := sliceBytes * D
        let buf := fillAtlasBuffer sliceBytes 0 (List.replicate byteCount 0) glyphs
        let parts := buildAtlasParts W H 0 glyphs
        let f : Font :=
          ⟨size, (0, size, 0, RESOLUTION), ppem, (W, H, D), buf,
           parts.1, parts.2.1, parts.2.2⟩
        ([.createTexture W H D, .writeTexture W H buf, .createTextureView,
          .createSampler, .createBindGroup, .createMesh parts.1 parts.2.1],
         .ok f)

/-- `gfx::IndexFormat` of the pipeline's `vertex_state`. -/
inductive IndexFormat where
  | uint16
  | uint32
  deriving Repr, DecidableEq

/-- `RenderPipeline::new` configures `vertex_state.index_format = IndexFormat::Uint16`. -/
def RenderPipeline.indexFormat : IndexFormat := .uint16

/-- The per-glyph output of `draw_text` (src/font.rs): the index range drawn,
the translation vector composed into the per-glyph transform
(`transform * Translation::from(cursor_pos + (x_offset/64, y_offset/64))`),
and the push-constant color. -/
structure DrawCmd where
  indexRange : Nat × Nat
  translation : ℚ × ℚ
  color : ColorF32
  deriving Repr, DecidableEq

/-- The panic of `font.glyph_map[&info.codepoint]` on a missing key. -/
inductive DrawErr where
  | glyphMapPanic (glyphId : Nat)
  deriving Repr, DecidableEq

/-- The glyph loop of `draw_text` (src/font.rs): walks the shaped run with a
cursor starting at the given position; for each shaped glyph, indexes
`glyph_map` by the shaped glyph id (panicking if absent), emits one draw with
translation `cursor + (x_offset/64, y_offset/64)` and color `WHITE`, then
advances the cursor by `(x_advance/64, y_advance/64)`.  Returns the draws
issued before any panic. -/
def drawLoop (f : Font) : List ShapedGlyph → ℚ × ℚ → List DrawCmd × Option DrawErr
  | [], _ => ([], none)
  | g :: gs, cur =>
    match lookupLast f.glyphMapList g.glyphId with
    | none => ([], some (.glyphMapPanic g.glyphId))
    | some range =>
      let cmd : DrawCmd :=
        ⟨range, (cur.1 + i26dot6_to_fpoint g.xOffset, cur.2 + i26dot6_to_fpoint g.yOffset),
         WHITE⟩
      let rest := drawLoop f gs
        (cur.1 + i26dot6_to_fpoint g.xAdvance, cur.2 + i26dot6_to_fpoint g.yAdvance)
      (cmd :: rest.1, rest.2)

/-- `Renderer::draw_text` (src/font.rs), applied to the shaped run the shaping
engine returns for the text: cursor starts at `(0, 0)`. -/
def drawText (f : Font) (shaped : List ShapedGlyph) : List DrawCmd × Option DrawErr :=
  drawLoop f shaped (0, 0)

end font

namespace text_renderer

/-- One entry of the glyph lookup table consumed by `draw_text`
(src/text_renderer.rs): the half-open index range into the shared index buffer
and the bearing vector. -/
structure GlyphEntry where
  indexRange : Nat × Nat
  bearing : ℚ × ℚ
  deriving Repr, DecidableEq

/-- Modelled from the spec: the `Font` type used by `text_renderer.rs` via
`use super::Font` — its defining module is not under `src/`.  Per spec 3/4.4 it
carries a lookup table keyed by glyph id whose values are
`(index_range, bearing)`; `glyph_info` looks a glyph id up in it. -/
structure Font where
  glyphEntries : List (Nat × GlyphEntry)

/-- Modelled from the spec: `Font::glyph_info`, looking the shaped glyph id up
in the table (spec 4.5 step 1; a missing id is a fatal lookup error, modelled
as `none`). -/
def Font.glyphInfo (f : Font) (glyphId : Nat) : Option GlyphEntry :=
  lookupLast f.glyphEntries glyphId

/-- Modelled from the spec: lookup-table construction (spec 4.1/4.3/4.4, not
under `src/`): glyph `i` of the raster set — a pair `(glyph_id, rendered
glyph)` — is mapped from its glyph id to index range `[6i, 6i+6)` and bearing
`(left, -top)`. -/
def buildEntries : Nat → List (Nat × FtGlyph) → List (Nat × GlyphEntry)
  | _, [] => []
  | i, (gid, g) :: gs =>
    (gid, ⟨(6 * i, 6 * i + 6), ((g.left : ℚ), (-g.top : ℚ))⟩) :: buildEntries (i + 1) gs

/-- Modelled from the spec: the `Font` built over a raster set (list of
`(glyph_id, rendered glyph)` in enumeration order). -/
def buildFont (glyphs : List (Nat × FtGlyph)) : Font :=
  ⟨buildEntries 0 glyphs⟩

/-- The per-glyph output of `draw_text` (src/text_renderer.rs): the index range
drawn, the `glyph_offset` push constant, and the push-constant color. -/
structure DrawCmd where
  indexRange : Nat × Nat
  glyphOffset : ℚ × ℚ
  color : ColorF32
  deriving Repr, DecidableEq

/-- The fatal lookup failure of `font.glyph_info(&info.codepoint)` for an id
with no atlas entry. -/
inductive DrawErr where
  | glyphInfoPanic (glyphId : Nat)
  deriving Repr, DecidableEq

/-- The glyph loop of `draw_text` (src/text_renderer.rs): for each shaped
glyph, look up `(range, bearing)` by glyph id (fatal if absent), emit one draw
with `glyph_offset = cursor + bearing + (x_offset/64, y_offset/64)` and color
`WHITE`, then advance the cursor by `(x_advance/64, y_advance/64)`.  Returns
the draws issued before any failure. -/
def drawLoop (f : Font) : List ShapedGlyph → ℚ × ℚ → List DrawCmd × Option DrawErr
  | [], _ => ([], none)
  | g :: gs, cur =>
    match f.glyphInfo g.glyphId with
    | none => ([], some (.glyphInfoPanic g.glyphId))
    | some e =>
      let cmd : DrawCmd :=
        ⟨e.indexRange,
         (cur.1 + e.bearing.1 + i26dot6_to_fpoint g.xOffset,
          cur.2 + e.bearing.2 + i26dot6_to_fpoint g.yOffset),
         WHITE⟩
      let rest := drawLoop f gs
        (cur.1 + i26dot6_to_fpoint g.xAdvance, cur.2 + i26dot6_to_fpoint g.yAdvance)
      (cmd :: rest.1, rest.2)

/-- `Renderer::draw_text` (src/text_renderer.rs), applied to the shaped run
`font.shape_text(text)` returns: cursor starts at `(0, 0)`. -/
def drawText (f : Font) (shaped : List ShapedGlyph) : List DrawCmd × Option DrawErr :=
  drawLoop f shaped (0, 0)

end text_renderer

/-- The pen position before the `j`-th shaped glyph: the componentwise sum of
the first `j` advances, converted from 26.6 fixed point. -/
def penAt (shaped : List ShapedGlyph) (j : Nat) : ℚ × ℚ :=
  (((shaped.take j).map fun g => i26dot6_to_fpoint g.xAdvance).sum,
   ((shaped.take j).map fun g => i26dot6_to_fpoint g.yAdvance).sum)

/-- `crossZ a b c` — the z-component of `(b - a) × (c - a)`. -/
def crossZ (a b c : ℚ × ℚ) : ℚ :=
  (b.1 - a.1) * (c.2 - a.2) - (b.2 - a.2) * (c.1 - a.1)

/-- Counter-clockwise winding in the y-down screen convention (negative cross
product; equivalently clockwise in the y-up mathematical convention). -/
def ccwYDown (a b c : ℚ × ℚ) : Prop := crossZ a b c < 0

instance (a b c : ℚ × ℚ) : Decidable (ccwYDown a b c) := by
  unfold ccwYDown; infer_instance

/-- Modelled from the spec: the rasterization collaborator's point-size →
device-ppem conversion (spec 4.5: `ppem = fixed26_6(size) * resolution / 72`,
72 points per inch), which `set_char_size` applies to the char-size request it
receives; the collaborator itself is out of scope and not under `src/`. -/
def rasterizerPpem (charSize26dot6 res : Nat) : Nat := charSize26dot6 * res / 72

/-! ## Concrete fixtures used by closed theorems -/

/-- A face where every character renders to a 1×1 bitmap `[255]` with bearings
`left = 5`, `top = 3`, and whose native glyph id for `'a'` (code point 97) is
68 (in real fonts the glyph id differs from the code point). -/
def faceA : Face :=
  ⟨fun _ => some ⟨⟨1, 1, [255]⟩, 5, 3⟩, fun c => if c = 97 then 68 else c⟩

/-- The `font.rs` `Font` built over `faceA` with character set `['a']`. -/
def fontA : font.Font := ((font.Font.new faceA 12 [97]).2.toOption).getD default

/-- A face rendering `'a'` (97) to a 1×2 bitmap `[7, 9]` and `'b'` (98) to a
2×1 bitmap `[1, 2]`: the resulting atlas extent is 2×2×2 and glyph 0 is
narrower than the atlas. -/
def faceB : Face :=
  ⟨fun c =>
    if c = 97 then some ⟨⟨1, 2, [7, 9]⟩, 0, 0⟩
    else if c = 98 then some ⟨⟨2, 1, [1, 2]⟩, 0, 0⟩
    else none,
   fun c => c⟩

/-- The `font.rs` `Font` built over `faceB` with character set `['a', 'b']`. -/
def fontB : font.Font :=
  ((font.Font.new faceB 12 [97, 98]).2.toOption).getD default

/-! ## Inversion of `Font::new` -/

/-- Successful `Font::new` determines every field of the produced `Font` from
the loaded glyph list and the two maxima. -/
theorem font_new_ok_inv (face : Face) (size : Nat) (chars : List Nat)
    (f : font.Font) (h : (font.Font.new face size chars).2 = .ok f) :
    ∃ glyphs W H, font.loadGlyphs face chars = .ok glyphs ∧
      listMax (glyphs.map fun x => x.2.width) = some W ∧
      listMax (glyphs.map fun x => x.2.rows) = some H ∧
      f = ⟨size, (0, size, 0, font.RESOLUTION), size * font.RESOLUTION / 72,
           (W, H, chars.length),
           font.fillAtlasBuffer (W * H) 0
             (List.replicate (W * H * chars.length) 0) glyphs,
           (font.buildAtlasParts W H 0 glyphs).1,
           (font.buildAtlasParts W H 0 glyphs).2.1,
           (font.buildAtlasParts W H 0 glyphs).2.2⟩ := by
  unfold font.Font.new at h
  split at h
  next => simp at h
  next glyphs hl =>
    split at h
    next => simp at h
    next W hw =>
      split at h
      next => simp at h
      next H hh =>
        simp only [Except.ok.injEq] at h
        exact ⟨glyphs, W, H, hl, hw, hh, h.symm⟩

/-! ## Structure of the built mesh: one 4-vertex/6-index block per glyph -/

theorem buildAtlasParts_idx_length (W H : Nat) :
    ∀ (gs : List (Nat × Bitmap)) (i0 : Nat),
      ((font.buildAtlasParts W H i0 gs).2.1).length = 6 * gs.length := by
  intro gs
  induction gs with
  | nil => intro i0; simp [font.buildAtlasParts]
  | cons cg gs ih =>
    intro i0
    obtain ⟨c, g⟩ := cg
    simp only [font.buildAtlasParts, List.length_append, ih (i0 + 1),
      List.length_cons, List.length_nil, font.glyphIndices]
    omega

theorem buildAtlasParts_vtx_length (W H : Nat) :
    ∀ (gs : List (Nat × Bitmap)) (i0 : Nat),
      ((font.buildAtlasParts W H i0 gs).1).length = 4 * gs.length := by
  intro gs
  induction gs with
  | nil => intro i0; simp [font.buildAtlasParts]
  | cons cg gs ih =>
    intro i0
    obtain ⟨c, g⟩ := cg
    simp only [font.buildAtlasParts, List.length_append, ih (i0 + 1),
      List.length_cons, List.length_nil, font.glyphVertices]
    omega

theorem buildAtlasParts_map_length (W H : Nat) :
    ∀ (gs : List (Nat × Bitmap)) (i0 : Nat),
      ((font.buildAtlasParts W H i0 gs).2.2).length = gs.length := by
  intro gs
  induction gs with
  | nil => intro i0; simp [font.buildAtlasParts]
  | cons cg gs ih =>
    intro i0
    obtain ⟨c, g⟩ := cg
    simp [font.buildAtlasParts, ih (i0 + 1)]

/-- Index-buffer entries of the built mesh, block `j`, position `k`: the `k`-th
index emitted for glyph `i0 + j`. -/
theorem buildAtlasParts_idx_get (W H : Nat) :
    ∀ (gs : List (Nat × Bitmap)) (i0 j k : Nat), j < gs.length → k < 6 →
      ((font.buildAtlasParts W H i0 gs).2.1)[6 * j + k]? =
        (font.glyphIndices (i0 + j))[k]? := by
  intro gs
  induction gs with
  | nil => intro i0 j k hj _; simp at hj
  | cons cg gs ih =>
    intro i0 j k hj hk
    obtain ⟨c, g⟩ := cg
    have hlen : (font.glyphIndices i0).length = 6 := by simp [font.glyphIndices]
    cases j with
    | zero =>
      simp only [font.buildAtlasParts]
      rw [List.getElem?_append]
      simp [hlen, hk]
    | succ j =>
      have hj' : j < gs.length := by simpa using hj
      simp only [font.buildAtlasParts]
      rw [List.getElem?_append]
      rw [if_neg (by rw [hlen]; omega)]
      rw [hlen]
      have harith : 6 * (j + 1) + k - 6 = 6 * j + k := by omega
      have hidx : i0 + (j + 1) = i0 + 1 + j := by omega
      rw [harith, hidx]
      exact ih (i0 + 1) j k hj' hk

/-- Vertex-buffer entries of the built mesh, block `j`, position `k`: the
`k`-th vertex emitted for glyph `i0 + j` with that glyph's bitmap. -/
theorem buildAtlasParts_vtx_get (W H : Nat) :
    ∀ (gs : List (Nat × Bitmap)) (i0 j k : Nat) (cg : Nat × Bitmap),
      gs[j]? = some cg → k < 4 →
      ((font.buildAtlasParts W H i0 gs).1)[4 * j + k]? =
        (font.glyphVertices W H (i0 + j) cg.2)[k]? := by
  intro gs
  induction gs with
  | nil => intro i0 j k cg hj _; simp at hj
  | cons cg0 gs ih =>
    intro i0 j k cg hj hk
    obtain ⟨c, g⟩ := cg0
    have hlen : (font.glyphVertices W H i0 g).length = 4 := by
      simp [font.glyphVertices]
    cases j with
    | zero =>
      simp only [List.getElem?_cons_zero, Option.some.injEq] at hj
      subst hj
      simp only [font.buildAtlasParts]
      rw [List.getElem?_append]
      simp [hlen, hk]
    | succ j =>
      simp only [List.getElem?_cons_succ] at hj
      simp only [font.buildAtlasParts]
      rw [List.getElem?_append]
      rw [if_neg (by rw [hlen]; omega)]
      rw [hlen]
      have harith : 4 * (j + 1) + k - 4 = 4 * j + k := by omega
      have hidx : i0 + (j + 1) = i0 + 1 + j := by omega
      rw [harith, hidx]
      exact ih (i0 + 1) j k cg hj hk

/-- Glyph-map insertions of the built mesh: the `j`-th insertion maps the
`j`-th character to the index range `[6(i0+j), 6(i0+j)+6)`. -/
theorem buildAtlasParts_map_get (W H : Nat) :
    ∀ (gs : List (Nat × Bitmap)) (i0 j : Nat) (cg : Nat × Bitmap),
      gs[j]? = some cg →
      ((font.buildAtlasParts W H i0 gs).2.2)[j]? =
        some (cg.1, 6 * (i0 + j), 6 * (i0 + j) + 6) := by
  intro gs
  induction gs with
  | nil => intro i0 j cg hj; simp at hj
  | cons cg0 gs ih =>
    intro i0 j cg hj
    obtain ⟨c, g⟩ := cg0
    cases j with
    | zero =>
      simp only [List.getElem?_cons_zero, Option.some.injEq] at hj
      subst hj
      simp [font.buildAtlasParts]
    | succ j =>
      simp only [List.getElem?_cons_succ] at hj
      simp only [font.buildAtlasParts, List.getElem?_cons_succ]
      have hidx : i0 + (j + 1) = i0 + 1 + j := by omega
      rw [hidx]
      exact ih (i0 + 1) j cg hj

/-- `loadGlyphs` preserves the character count and pairs each character with
its rendered bitmap. -/
theorem loadGlyphs_length (face : Face) :
    ∀ (cs : List Nat) (glyphs : List (Nat × Bitmap)),
      font.loadGlyphs face cs = .ok glyphs → glyphs.length = cs.length := by
  intro cs
  induction cs with
  | nil => intro glyphs h; simp only [font.loadGlyphs] at h; cases h; rfl
  | cons c cs ih =>
    intro glyphs h
    simp only [font.loadGlyphs] at h
    cases hc : face.loadChar c with
    | none => rw [hc] at h; cases h
    | some g =>
      rw [hc] at h
      cases hrest : font.loadGlyphs face cs with
      | error e => rw [hrest] at h; cases h
      | ok rest =>
        rw [hrest] at h
        cases h
        simp [ih rest hrest]

/-- When `4 * i + 3 < 2^16`, the `u16` cast in `vertices_begin` is lossless and
the six indices of glyph `i` take their intended values. -/
theorem glyphIndices_small (i : Nat) (h : 4 * i + 3 < 65536) :
    font.glyphIndices i =
      [4 * i, 4 * i + 1, 4 * i + 3, 4 * i + 3, 4 * i + 1, 4 * i + 2] := by
  simp [font.glyphIndices, Nat.mod_eq_of_lt (show 4 * i < 65536 by omega)]

/-- Every index value emitted for glyph `i` lies within 3 of
`(4 * i) % 2^16`. -/
theorem glyphIndices_mem_bounds (i k x : Nat) (hk : k < 6)
    (hx : (font.glyphIndices i)[k]? = some x) :
    (4 * i) % 65536 ≤ x ∧ x ≤ (4 * i) % 65536 + 3 := by
  interval_cases k <;>
    simp only [font.glyphIndices, List.getElem?_cons_zero, List.getElem?_cons_succ,
      Option.some.injEq] at hx <;> omega

/-! ## Structure of the draw loops -/

theorem penAt_zero (shaped : List ShapedGlyph) : penAt shaped 0 = (0, 0) := by
  simp [penAt]

theorem penAt_cons (g : ShapedGlyph) (tl : List ShapedGlyph) (j : Nat) :
    penAt (g :: tl) (j + 1) =
      (i26dot6_to_fpoint g.xAdvance + (penAt tl j).1,
       i26dot6_to_fpoint g.yAdvance + (penAt tl j).2) := by
  simp [penAt]

/-- The `j`-th draw emitted by the `text_renderer.rs` loop, when the first
`j + 1` lookups succeed: index range and bearing from the lookup, offset
`cursor-start + pen + bearing + offset/64`, color `WHITE`. -/
theorem tr_drawLoop_get (f : text_renderer.Font) :
    ∀ (shaped : List ShapedGlyph) (cur : ℚ × ℚ) (j : Nat) (g : ShapedGlyph)
      (e : text_renderer.GlyphEntry),
      shaped[j]? = some g →
      (∀ k gk, k < j → shaped[k]? = some gk → (f.glyphInfo gk.glyphId).isSome) →
      f.glyphInfo g.glyphId = some e →
      ∃ cmd, ((text_renderer.drawLoop f shaped cur).1)[j]? = some cmd ∧
        cmd.indexRange = e.indexRange ∧ cmd.color = WHITE ∧
        cmd.glyphOffset.1 =
          cur.1 + (penAt shaped j).1 + e.bearing.1 + i26dot6_to_fpoint g.xOffset ∧
        cmd.glyphOffset.2 =
          cur.2 + (penAt shaped j).2 + e.bearing.2 + i26dot6_to_fpoint g.yOffset := by
  intro shaped
  induction shaped with
  | nil => intro cur j g e hj _ _; simp at hj
  | cons g0 gs ih =>
    intro cur j g e hj hpre he
    cases j with
    | zero =>
      simp only [List.getElem?_cons_zero, Option.some.injEq] at hj
      subst hj
      refine ⟨⟨e.indexRange,
        (cur.1 + e.bearing.1 + i26dot6_to_fpoint g0.xOffset,
         cur.2 + e.bearing.2 + i26dot6_to_fpoint g0.yOffset), WHITE⟩, ?_, rfl, rfl, ?_, ?_⟩
      · simp only [text_renderer.drawLoop, he, List.getElem?_cons_zero]
      · simp only [penAt_zero]; ring
      · simp only [penAt_zero]; ring
    | succ j =>
      simp only [List.getElem?_cons_succ] at hj
      have h0 : (f.glyphInfo g0.glyphId).isSome :=
        hpre 0 g0 (by omega) (by simp)
      obtain ⟨e0, he0⟩ := Option.isSome_iff_exists.mp h0
      have hpre' : ∀ k gk, k < j → gs[k]? = some gk →
          (f.glyphInfo gk.glyphId).isSome := by
        intro k gk hk hg
        exact hpre (k + 1) gk (by omega) (by simpa using hg)
      obtain ⟨cmd, hcmd, hrng, hcol, hx, hy⟩ :=
        ih (cur.1 + i26dot6_to_fpoint g0.xAdvance, cur.2 + i26dot6_to_fpoint g0.yAdvance)
          j g e hj hpre' he
      refine ⟨cmd, ?_, hrng, hcol, ?_, ?_⟩
      · simp only [text_renderer.drawLoop, he0, List.getElem?_cons_succ]
        exact hcmd
      · rw [hx, penAt_cons]; ring
      · rw [hy, penAt_cons]; ring

/-- The `j`-th draw emitted by the `font.rs` loop, when the first `j + 1`
lookups succeed: index range from the map, translation
`cursor-start + pen + offset/64` (no bearing term), color `WHITE`. -/
theorem f_drawLoop_get (f : font.Font) :
    ∀ (shaped : List ShapedGlyph) (cur : ℚ × ℚ) (j : Nat) (g : ShapedGlyph)
      (rng : Nat × Nat),
      shaped[j]? = some g →
      (∀ k gk, k < j → shaped[k]? = some gk →
        (lookupLast f.glyphMapList gk.glyphId).isSome) →
      lookupLast f.glyphMapList g.glyphId = some rng →
      ∃ cmd, ((font.drawLoop f shaped cur).1)[j]? = some cmd ∧
        cmd.indexRange = rng ∧ cmd.color = WHITE ∧
        cmd.translation.1 = cur.1 + (penAt shaped j).1 + i26dot6_to_fpoint g.xOffset ∧
        cmd.translation.2 = cur.2 + (penAt shaped j).2 + i26dot6_to_fpoint g.yOffset := by
  intro shaped
  induction shaped with
  | nil => intro cur j g rng hj _ _; simp at hj
  | cons g0 gs ih =>
    intro cur j g rng hj hpre he
    cases j with
    | zero =>
      simp only [List.getElem?_cons_zero, Option.some.injEq] at hj
      subst hj
      refine ⟨⟨rng,
        (cur.1 + i26dot6_to_fpoint g0.xOffset, cur.2 + i26dot6_to_fpoint g0.yOffset),
        WHITE⟩, ?_, rfl, rfl, ?_, ?_⟩
      · simp only [font.drawLoop, he, List.getElem?_cons_zero]
      · simp only [penAt_zero]; ring
      · simp only [penAt_zero]; ring
    | succ j =>
      simp only [List.getElem?_cons_succ] at hj
      have h0 : (lookupLast f.glyphMapList g0.glyphId).isSome :=
        hpre 0 g0 (by omega) (by simp)
      obtain ⟨rng0, he0⟩ := Option.isSome_iff_exists.mp h0
      have hpre' : ∀ k gk, k < j → gs[k]? = some gk →
          (lookupLast f.glyphMapList gk.glyphId).isSome := by
        intro k gk hk hg
        exact hpre (k + 1) gk (by omega) (by simpa using hg)
      obtain ⟨cmd, hcmd, hrng, hcol, hx, hy⟩ :=
        ih (cur.1 + i26dot6_to_fpoint g0.xAdvance, cur.2 + i26dot6_to_fpoint g0.yAdvance)
          j g rng hj hpre' he
      refine ⟨cmd, ?_, hrng, hcol, ?_, ?_⟩
      · simp only [font.drawLoop, he0, List.getElem?_cons_succ]
        exact hcmd
      · rw [hx, penAt_cons]; ring
      · rw [hy, penAt_cons]; ring

/-- Inversion of the spec-modelled lookup table: every entry found for a glyph
id comes from some raster-set position `j`, carrying index range
`[6(i0+j), 6(i0+j)+6)` and bearing `(left, −top)` of that glyph. -/
theorem buildEntries_lookup :
    ∀ (glyphs : List (Nat × FtGlyph)) (i0 gid : Nat) (e : text_renderer.GlyphEntry),
      lookupLast (text_renderer.buildEntries i0 glyphs) gid = some e →
      ∃ j fg, glyphs[j]? = some (gid, fg) ∧
        e = ⟨(6 * (i0 + j), 6 * (i0 + j) + 6), ((fg.left : ℚ), (-fg.top : ℚ))⟩ := by
  intro glyphs
  induction glyphs with
  | nil => intro i0 gid e h; simp [text_renderer.buildEntries, lookupLast] at h
  | cons gg gs ih =>
    intro i0 gid e h
    obtain ⟨gid0, g0⟩ := gg
    simp only [text_renderer.buildEntries, lookupLast] at h
    cases hrec : lookupLast (text_renderer.buildEntries (i0 + 1) gs) gid with
    | some r =>
      rw [hrec] at h
      simp only [Option.some.injEq] at h
      subst h
      obtain ⟨j, fg, hj, hr⟩ := ih (i0 + 1) gid r hrec
      refine ⟨j + 1, fg, by simpa using hj, ?_⟩
      rw [hr]
      have : i0 + 1 + j = i0 + (j + 1) := by omega
      rw [this]
    | none =>
      rw [hrec] at h
      by_cases hgid : gid0 = gid
      · subst hgid
        simp only [if_true, Option.some.injEq] at h
        refine ⟨0, g0, by simp, ?_⟩
        rw [← h]
        norm_num
      · simp [if_neg hgid] at h

/-- A run whose glyph ids are all found draws one command per glyph and
reports no error (`text_renderer.rs` loop). -/
theorem tr_drawLoop_all_ok (f : text_renderer.Font) :
    ∀ (shaped : List ShapedGlyph) (cur : ℚ × ℚ),
      (∀ g ∈ shaped, (f.glyphInfo g.glyphId).isSome) →
      (text_renderer.drawLoop f shaped cur).2 = none ∧
      (text_renderer.drawLoop f shaped cur).1.length = shaped.length := by
  intro shaped
  induction shaped with
  | nil => intro cur _; simp [text_renderer.drawLoop]
  | cons g0 gs ih =>
    intro cur hall
    obtain ⟨e0, he0⟩ := Option.isSome_iff_exists.mp (hall g0 (by simp))
    have hrest := ih
      (cur.1 + i26dot6_to_fpoint g0.xAdvance, cur.2 + i26dot6_to_fpoint g0.yAdvance)
      (fun g hg => hall g (by simp [hg]))
    simp only [text_renderer.drawLoop, he0, List.length_cons]
    exact ⟨hrest.1, by rw [hrest.2]⟩

/-- Hitting a missing glyph id stops the `text_renderer.rs` loop: the emitted
draws are exactly those of the preceding prefix, and the failure names the
missing id. -/
theorem tr_drawLoop_split (f : text_renderer.Font) (bad : ShapedGlyph)
    (hbad : f.glyphInfo bad.glyphId = none) :
    ∀ (pre : List ShapedGlyph) (rest : List ShapedGlyph) (cur : ℚ × ℚ),
      (∀ g ∈ pre, (f.glyphInfo g.glyphId).isSome) →
      (text_renderer.drawLoop f (pre ++ bad :: rest) cur).1 =
        (text_renderer.drawLoop f pre cur).1 ∧
      (text_renderer.drawLoop f (pre ++ bad :: rest) cur).2 =
        some (.glyphInfoPanic bad.glyphId) := by
  intro pre
  induction pre with
  | nil =>
    intro rest cur _
    refine ⟨?_, ?_⟩ <;> simp [text_renderer.drawLoop, hbad]
  | cons g0 gs ih =>
    intro rest cur hall
    obtain ⟨e0, he0⟩ := Option.isSome_iff_exists.mp (hall g0 (by simp))
    have hrest := ih rest
      (cur.1 + i26dot6_to_fpoint g0.xAdvance, cur.2 + i26dot6_to_fpoint g0.yAdvance)
      (fun g hg => hall g (by simp [hg]))
    simp only [List.cons_append, text_renderer.drawLoop, he0, List.append_eq]
    exact ⟨by rw [hrest.1], hrest.2⟩

/-- Same as `tr_drawLoop_all_ok` for the `font.rs` loop. -/
theorem f_drawLoop_all_ok (f : font.Font) :
    ∀ (shaped : List ShapedGlyph) (cur : ℚ × ℚ),
      (∀ g ∈ shaped, (lookupLast f.glyphMapList g.glyphId).isSome) →
      (font.drawLoop f shaped cur).2 = none ∧
      (font.drawLoop f shaped cur).1.length = shaped.length := by
  intro shaped
  induction shaped with
  | nil => intro cur _; simp [font.drawLoop]
  | cons g0 gs ih =>
    intro cur hall
    obtain ⟨e0, he0⟩ := Option.isSome_iff_exists.mp (hall g0 (by simp))
    have hrest := ih
      (cur.1 + i26dot6_to_fpoint g0.xAdvance, cur.2 + i26dot6_to_fpoint g0.yAdvance)
      (fun g hg => hall g (by simp [hg]))
    simp only [font.drawLoop, he0, List.length_cons]
    exact ⟨hrest.1, by rw [hrest.2]⟩

/-- Same as `tr_drawLoop_split` for the `font.rs` loop. -/
theorem f_drawLoop_split (f : font.Font) (bad : ShapedGlyph)
    (hbad : lookupLast f.glyphMapList bad.glyphId = none) :
    ∀ (pre : List ShapedGlyph) (rest : List ShapedGlyph) (cur : ℚ × ℚ),
      (∀ g ∈ pre, (lookupLast f.glyphMapList g.glyphId).isSome) →
      (font.drawLoop f (pre ++ bad :: rest) cur).1 =
        (font.drawLoop f pre cur).1 ∧
      (font.drawLoop f (pre ++ bad :: rest) cur).2 =
        some (.glyphMapPanic bad.glyphId) := by
  intro pre
  induction pre with
  | nil =>
    intro rest cur _
    refine ⟨?_, ?_⟩ <;> simp [font.drawLoop, hbad]
  | cons g0 gs ih =>
    intro rest cur hall
    obtain ⟨e0, he0⟩ := Option.isSome_iff_exists.mp (hall g0 (by simp))
    have hrest := ih rest
      (cur.1 + i26dot6_to_fpoint g0.xAdvance, cur.2 + i26dot6_to_fpoint g0.yAdvance)
      (fun g hg => hall g (by simp [hg]))
    simp only [List.cons_append, font.drawLoop, he0, List.append_eq]
    exact ⟨by rw [hrest.1], hrest.2⟩

/-- Every draw emitted by the `text_renderer.rs` loop carries color `WHITE`. -/
theorem tr_drawLoop_color (f : text_renderer.Font) :
    ∀ (shaped : List ShapedGlyph) (cur : ℚ × ℚ) (cmd : text_renderer.DrawCmd),
      cmd ∈ (text_renderer.drawLoop f shaped cur).1 → cmd.color = WHITE := by
  intro shaped
  induction shaped with
  | nil => intro cur cmd h; simp [text_renderer.drawLoop] at h
  | cons g0 gs ih =>
    intro cur cmd h
    cases he0 : f.glyphInfo g0.glyphId with
    | none => simp [text_renderer.drawLoop, he0] at h
    | some e0 =>
      simp only [text_renderer.drawLoop, he0, List.mem_cons] at h
      rcases h with h | h
      · rw [h]
      · exact ih _ cmd h

/-- Every draw emitted by the `font.rs` loop carries color `WHITE`. -/
theorem f_drawLoop_color (f : font.Font) :
    ∀ (shaped : List ShapedGlyph) (cur : ℚ × ℚ) (cmd : font.DrawCmd),
      cmd ∈ (font.drawLoop f shaped cur).1 → cmd.color = WHITE := by
  intro shaped
  induction shaped with
  | nil => intro cur cmd h; simp [font.drawLoop] at h
  | cons g0 gs ih =>
    intro cur cmd h
    cases he0 : lookupLast f.glyphMapList g0.glyphId with
    | none => simp [font.drawLoop, he0] at h
    | some rng0 =>
      simp only [font.drawLoop, he0, List.mem_cons] at h
      rcases h with h | h
      · rw [h]
      · exact ih _ cmd h

/-- A one-glyph raster set for the spec-modelled lookup table: glyph id 68
rendered to a 1×1 bitmap with bearings `left = 5`, `top = 3`. -/
def glyphsW : List (Nat × FtGlyph) := [(68, ⟨⟨1, 1, [255]⟩, 5, 3⟩)]

/-- A one-glyph shaped run naming glyph id 68 with advance `(64, 0)` and
offset `(128, 192)` in 26.6 fixed point (i.e. `(2, 3)` pixels). -/
def shapedW : List ShapedGlyph := [⟨68, 64, 0, 128, 192⟩]

/-- A one-glyph shaped run naming glyph id 97 with advance `(64, 0)` and
offset `(128, 192)` in 26.6 fixed point. -/
def shapedA : List ShapedGlyph := [⟨97, 64, 0, 128, 192⟩]

/-- A 1×1 bitmap, used for large-scale fixtures. -/
def bmA : Bitmap := ⟨1, 1, [255]⟩

/-- 16385 identical glyphs: the smallest count at which `4·(n−1)+3 ≥ 2^16`. -/
def gsBig : List (Nat × Bitmap) := List.replicate 16385 (97, bmA)

/-! ## Claim theorems -/

/-- **C1** (code bug): the claim says the glyph lookup table is keyed by the
face's native glyph id, so that every shaped glyph id from the build set is
found at draw time.  The code keys the table by the character's Unicode code
point (`glyphs.push((*c as u32, ...))`): building over `['a']` on a face whose
native glyph id for `'a'` (code point 97) is 68 records key 97, the shaped
glyph id 68 is not found, and `draw_text` hits the fatal map-indexing failure
with no draw issued. -/
theorem c1_glyph_key_bug :
    (font.Font.new faceA 12 [97]).2 = .ok fontA ∧
    fontA.glyphMapList = [(97, 0, 6)] ∧
    faceA.charIndex 97 = 68 ∧
    lookupLast fontA.glyphMapList (faceA.charIndex 97) = none ∧
    font.drawText fontA [⟨faceA.charIndex 97, 64, 0, 0, 0⟩] =
      ([], some (.glyphMapPanic 68)) :=
  ⟨rfl, by decide, by decide, by decide, by decide⟩

/-- **C2** (code bug): the claim says the atlas copy is row-by-row with
destination stride `W`, so that the atlas byte at `i·(W·H) + row·W + col`
equals the glyph's pixel at `(row, col)`.  The code performs a single
contiguous copy of the whole glyph buffer
(`glyph_atlas_buffer[range_begin..range_end].copy_from_slice(g.buffer())`): in
the 2×2×2 atlas over `faceB`, glyph 0 (width 1, rows 2, pixels `[7, 9]`) has
pixel `(1, 0) = 9`, but the atlas byte at offset `0·4 + 1·2 + 0 = 2` is `0`
(the copy left `9` at offset 1 instead). -/
theorem c2_atlas_copy_bug :
    (font.Font.new faceB 12 [97, 98]).2 = .ok fontB ∧
    fontB.glyphAtlasExtent = (2, 2, 2) ∧
    fontB.glyphAtlasBuffer = [7, 9, 0, 0, 1, 2, 0, 0] ∧
    ((faceB.loadChar 97).map fun g => g.bitmap.buffer[1 * g.bitmap.width + 0]?) =
      some (some 9) ∧
    fontB.glyphAtlasBuffer[0 * (2 * 2) + 1 * 2 + 0]? = some 0 :=
  ⟨rfl, by decide, by decide, by decide, by decide⟩

/-- **C4**: `Font::new` invoked with an empty character list fails (the
`.max().unwrap()` over the empty glyph set panics — the code realizes the
rejection as this panic rather than a named error value), and the list of GPU
commands issued up to that point is empty: the rejection happens before any
GPU resource is allocated. -/
theorem c4_empty_character_set :
    ∀ (face : Face) (size : Nat),
      (font.Font.new face size []).1 = [] ∧
      (font.Font.new face size []).2 = .error .emptyMaxPanic :=
  fun _ _ => ⟨rfl, rfl⟩

/-- **C5**: in `Font::new`, the rasterizer is configured with the char-size
request `(0, size, 0, RESOLUTION)` — to which the collaborator applies
`ppem = char_size * resolution / 72` (spec 4.5/6) — and the shaping engine's
ppem is set to `size * RESOLUTION / 72`: the same conversion applied to the
same inputs, so the two scales agree for every `size > 0`. -/
theorem c5_ppem_identical (face : Face) (size : Nat) (chars : List Nat)
    (f : font.Font) (_hsize : 0 < size)
    (h : (font.Font.new face size chars).2 = .ok f) :
    f.charSizeReq = (0, size, 0, font.RESOLUTION) ∧
    f.hbPpem = rasterizerPpem f.charSizeReq.2.1 f.charSizeReq.2.2.2 ∧
    f.hbPpem = rasterizerPpem size font.RESOLUTION := by
  obtain ⟨glyphs, W, H, -, -, -, hf⟩ := font_new_ok_inv face size chars f h
  subst hf
  exact ⟨rfl, rfl, rfl⟩

/-- Witness for **C5** at a concrete construction: `size = 12` over `faceA`,
where both scales evaluate to `12 * 300 / 72 = 50`. -/
theorem c5_ppem_identical_witness :
    (0 < 12 ∧ (font.Font.new faceA 12 [97]).2 = .ok fontA) ∧
    (fontA.charSizeReq = (0, 12, 0, font.RESOLUTION) ∧
     fontA.hbPpem = rasterizerPpem fontA.charSizeReq.2.1 fontA.charSizeReq.2.2.2 ∧
     fontA.hbPpem = rasterizerPpem 12 font.RESOLUTION) :=
  ⟨⟨by decide, rfl⟩, c5_ppem_identical faceA 12 [97] fontA (by decide) rfl⟩

/-- **C6** counterexample: in the concrete one-glyph construction over `faceA`
the six indices are `[0, 1, 3, 3, 1, 2]`, so the two triangles are
`{0, 1, 3}` and `{3, 1, 2}`: the diagonal they share is *not* the one from
vertex 0 to vertex 2 (vertex 0 is missing from the second triangle and vertex
2 from the first), refuting the claimed diagonal. -/
theorem c6_diagonal_cex :
    (font.Font.new faceA 12 [97]).2 = .ok fontA ∧
    fontA.indices = [0, 1, 3, 3, 1, 2] ∧
    ¬ ((0 ∈ fontA.indices.take 3 ∧ 0 ∈ fontA.indices.drop 3) ∧
       (2 ∈ fontA.indices.take 3 ∧ 2 ∈ fontA.indices.drop 3)) :=
  ⟨rfl, by decide, by decide⟩

/-- **C6** (amended): for glyph `j` with bitmap `(gw, gh)` in an atlas of
extent `(W, H, n)`, the builder emits 4 vertices spanning `(0,0)–(gw,gh)` with
texture coordinates `(0,0), (0,gh/H), (gw/W,gh/H), (gw/W,0)` and layer
coordinate `j` at vertex positions `[4j, 4j+4)`, and 6 indices at positions
`[6j, 6j+6)` with values `vb, vb+1, vb+3, vb+3, vb+1, vb+2` for
`vb = (4j) mod 2^16`; the two triangles are counter-clockwise in the y-down
screen convention whenever `gw, gh > 0`, and their shared diagonal runs from
vertex 1 to vertex 3 (not from 0 to 2). -/
theorem c6_quad_amended (face : Face) (size : Nat) (chars : List Nat)
    (f : font.Font) (glyphs : List (Nat × Bitmap)) (j : Nat) (cg : Nat × Bitmap)
    (h : (font.Font.new face size chars).2 = .ok f)
    (hl : font.loadGlyphs face chars = .ok glyphs)
    (hj : glyphs[j]? = some cg) :
    ∃ W H,
      f.glyphAtlasExtent = (W, H, chars.length) ∧
      (f.vertices[4 * j]? = some ⟨(0, 0), (0, 0, (j : ℚ))⟩ ∧
       f.vertices[4 * j + 1]? =
         some ⟨(0, (cg.2.rows : ℚ)), (0, (cg.2.rows : ℚ) / (H : ℚ), (j : ℚ))⟩ ∧
       f.vertices[4 * j + 2]? =
         some ⟨((cg.2.width : ℚ), (cg.2.rows : ℚ)),
               ((cg.2.width : ℚ) / (W : ℚ), (cg.2.rows : ℚ) / (H : ℚ), (j : ℚ))⟩ ∧
       f.vertices[4 * j + 3]? =
         some ⟨((cg.2.width : ℚ), 0), ((cg.2.width : ℚ) / (W : ℚ), 0, (j : ℚ))⟩) ∧
      (∀ k, k < 6 → f.indices[6 * j + k]? = (font.glyphIndices j)[k]?) ∧
      font.glyphIndices j =
        [(4 * j) % 65536, (4 * j) % 65536 + 1, (4 * j) % 65536 + 3,
         (4 * j) % 65536 + 3, (4 * j) % 65536 + 1, (4 * j) % 65536 + 2] ∧
      (0 < cg.2.width → 0 < cg.2.rows →
        ccwYDown (0, 0) (0, (cg.2.rows : ℚ)) ((cg.2.width : ℚ), 0) ∧
        ccwYDown ((cg.2.width : ℚ), 0) (0, (cg.2.rows : ℚ))
          ((cg.2.width : ℚ), (cg.2.rows : ℚ))) ∧
      (∀ x, (x ∈ (font.glyphIndices j).take 3 ∧ x ∈ (font.glyphIndices j).drop 3) ↔
        (x = (4 * j) % 65536 + 1 ∨ x = (4 * j) % 65536 + 3)) := by
  obtain ⟨glyphs', W, H, hl', hw, hh, hf⟩ := font_new_ok_inv face size chars f h
  rw [hl] at hl'
  cases hl'
  subst hf
  refine ⟨W, H, rfl, ?_, ?_, by simp [font.glyphIndices], ?_, ?_⟩
  · have h0 := buildAtlasParts_vtx_get W H glyphs 0 j 0 cg hj (by omega)
    have h1 := buildAtlasParts_vtx_get W H glyphs 0 j 1 cg hj (by omega)
    have h2 := buildAtlasParts_vtx_get W H glyphs 0 j 2 cg hj (by omega)
    have h3 := buildAtlasParts_vtx_get W H glyphs 0 j 3 cg hj (by omega)
    simp only [Nat.zero_add, Nat.add_zero] at h0 h1 h2 h3
    refine ⟨?_, ?_, ?_, ?_⟩
    · simpa [font.glyphVertices] using h0
    · simpa [font.glyphVertices] using h1
    · simpa [font.glyphVertices] using h2
    · simpa [font.glyphVertices] using h3
  · intro k hk
    have hjlen : j < glyphs.length := by
      rcases List.getElem?_eq_some.mp hj with ⟨hlt, -⟩
      exact hlt
    have := buildAtlasParts_idx_get W H glyphs 0 j k hjlen hk
    simpa using this
  · intro hgw hgh
    have hw' : (0 : ℚ) < (cg.2.width : ℚ) := by exact_mod_cast hgw
    have hh' : (0 : ℚ) < (cg.2.rows : ℚ) := by exact_mod_cast hgh
    constructor
    · show crossZ _ _ _ < 0
      simp only [crossZ]
      nlinarith
    · show crossZ _ _ _ < 0
      simp only [crossZ]
      nlinarith
  · intro x
    simp only [font.glyphIndices, List.take, List.drop, List.mem_cons,
      List.not_mem_nil, or_false]
    omega

/-- Witness for **C6** (amended) at a concrete construction: glyph 0 of the
`faceB` font (bitmap 1×2 in the 2×2×2 atlas). -/
theorem c6_quad_amended_witness :
    ((font.Font.new faceB 12 [97, 98]).2 = .ok fontB ∧
     font.loadGlyphs faceB [97, 98] =
       .ok [(97, ⟨1, 2, [7, 9]⟩), (98, ⟨2, 1, [1, 2]⟩)] ∧
     ([(97, (⟨1, 2, [7, 9]⟩ : Bitmap)), (98, ⟨2, 1, [1, 2]⟩)][0]? =
       some (97, ⟨1, 2, [7, 9]⟩))) ∧
    (∃ W H,
      fontB.glyphAtlasExtent = (W, H, 2) ∧
      fontB.vertices[4 * 0 + 2]? =
        some ⟨((1 : ℚ), (2 : ℚ)), ((1 : ℚ) / (W : ℚ), (2 : ℚ) / (H : ℚ), (0 : ℚ))⟩ ∧
      ccwYDown (0, 0) (0, (2 : ℚ)) ((1 : ℚ), 0)) := by
  refine ⟨⟨rfl, rfl, by decide⟩, ?_⟩
  obtain ⟨W, H, hext, ⟨-, -, hv2, -⟩, -, -, hccw, -⟩ :=
    c6_quad_amended faceB 12 [97, 98] fontB
      [(97, ⟨1, 2, [7, 9]⟩), (98, ⟨2, 1, [1, 2]⟩)] 0 (97, ⟨1, 2, [7, 9]⟩)
      rfl rfl (by decide)
  exact ⟨W, H, by simpa using hext, by simpa using hv2,
    (hccw (by decide) (by decide)).1⟩

/-- **C7** counterexample: with 16385 glyphs, glyph index 16384 has
`4·16384 = 2^16`, the `u16` cast wraps to 0, and the mesh's first index for
that glyph is `0` — not inside the claimed vertex range `[4·16384, 4·16384+4)`
— and equal to glyph 0's first index, so the vertex ranges of distinct glyph
indices overlap. -/
theorem c7_wrap_cex :
    (font.buildAtlasParts 1 1 0 gsBig).2.1[6 * 16384]? = some 0 ∧
    (font.buildAtlasParts 1 1 0 gsBig).2.1[0]? = some 0 ∧
    ¬ (4 * 16384 ≤ 0) := by
  have hlen : (16384 : Nat) < gsBig.length := by
    simp only [gsBig, List.length_replicate]
    omega
  have h1 := buildAtlasParts_idx_get 1 1 gsBig 0 16384 0 hlen (by omega)
  have h2 := buildAtlasParts_idx_get 1 1 gsBig 0 0 0 (by omega) (by omega)
  simp only [Nat.add_zero, Nat.zero_add] at h1 h2
  refine ⟨?_, ?_, by decide⟩
  · rw [h1]; decide
  · simpa using h2.trans (by decide)

/-- **C7** (amended): in every successful construction, the lookup-table entry
recorded for glyph index `j` carries exactly the index range `[6j, 6j+6)`, and
recorded index ranges of distinct glyph indices never overlap; the vertex
index values used by glyph `j` lie exactly in `[4j, 4j+4)` whenever
`4j + 3 < 2^16` (below the `u16` wrap), and under that bound the vertex ranges
of distinct glyph indices never overlap. -/
theorem c7_ranges_amended (face : Face) (size : Nat) (chars : List Nat)
    (f : font.Font) (h : (font.Font.new face size chars).2 = .ok f) :
    (∀ j e, f.glyphMapList[j]? = some e → e.2.1 = 6 * j ∧ e.2.2 = 6 * j + 6) ∧
    (∀ j j' : Nat, j ≠ j' →
      ∀ x, ¬((6 * j ≤ x ∧ x < 6 * j + 6) ∧ (6 * j' ≤ x ∧ x < 6 * j' + 6))) ∧
    (∀ j k x, k < 6 → f.indices[6 * j + k]? = some x → 4 * j + 3 < 65536 →
      4 * j ≤ x ∧ x < 4 * j + 4) ∧
    (∀ j j' : Nat, j ≠ j' →
      ∀ x, ¬((4 * j ≤ x ∧ x < 4 * j + 4) ∧ (4 * j' ≤ x ∧ x < 4 * j' + 4))) := by
  obtain ⟨glyphs, W, H, hl, hw, hh, hf⟩ := font_new_ok_inv face size chars f h
  subst hf
  refine ⟨?_, ?_, ?_, ?_⟩
  · intro j e he
    have hjlen : j < glyphs.length := by
      have := List.getElem?_eq_some.mp he
      rcases this with ⟨hlt, -⟩
      rw [buildAtlasParts_map_length W H glyphs 0] at hlt
      exact hlt
    obtain ⟨cg, hcg⟩ : ∃ cg, glyphs[j]? = some cg :=
      ⟨glyphs[j], List.getElem?_eq_getElem hjlen⟩
    have := buildAtlasParts_map_get W H glyphs 0 j cg hcg
    rw [he] at this
    cases this
    simp
  · intro j j' hne x
    omega
  · intro j k x hk hx hsmall
    have hjlen : j < glyphs.length := by
      have := List.getElem?_eq_some.mp hx
      rcases this with ⟨hlt, -⟩
      rw [buildAtlasParts_idx_length W H glyphs 0] at hlt
      omega
    have hget := buildAtlasParts_idx_get W H glyphs 0 j k hjlen hk
    simp only [Nat.zero_add] at hget
    rw [hx] at hget
    have hb := glyphIndices_mem_bounds j k x hk hget.symm
    have hm : (4 * j) % 65536 = 4 * j := Nat.mod_eq_of_lt (by omega)
    omega
  · intro j j' hne x
    omega

/-- Witness for **C7** (amended) at the concrete `faceB` construction: glyph
index 1's recorded range is `[6, 12)` and its third index value `7` lies in
`[4, 8)`. -/
theorem c7_ranges_amended_witness :
    ((font.Font.new faceB 12 [97, 98]).2 = .ok fontB ∧
     fontB.glyphMapList[1]? = some (98, 6, 12) ∧
     fontB.indices[6 * 1 + 2]? = some 7) ∧
    ((98, 6, 12).2.1 = 6 * 1 ∧ (98, 6, 12).2.2 = 6 * 1 + 6) ∧
    (4 * 1 ≤ 7 ∧ 7 < 4 * 1 + 4) := by
  have h := c7_ranges_amended faceB 12 [97, 98] fontB rfl
  exact ⟨⟨rfl, by decide, by decide⟩,
    h.1 1 (98, 6, 12) (by decide),
    h.2.2.1 1 2 7 (by decide) (by decide) (by decide)⟩

/-- **C9**: the pipeline's index format is `Uint16` and each index value is
`(4i) mod 2^16` plus `0..3`; whenever `4(n−1)+3 < 2^16` every emitted index of
any successful construction equals its intended value exactly; with
`n ≥ 16385` glyphs, the cast wraps and glyph 16384's six index values coincide
with glyph 0's — the indices silently alias an earlier glyph's vertices. -/
theorem c9_index_u16 :
    font.RenderPipeline.indexFormat = .uint16 ∧
    (∀ i, 4 * i + 3 < 65536 →
      font.glyphIndices i =
        [4 * i, 4 * i + 1, 4 * i + 3, 4 * i + 3, 4 * i + 1, 4 * i + 2]) ∧
    (∀ face size chars f, (font.Font.new face size chars).2 = .ok f →
      4 * (chars.length - 1) + 3 < 65536 →
      ∀ j k, k < 6 → j < chars.length →
        f.indices[6 * j + k]? =
          [4 * j, 4 * j + 1, 4 * j + 3, 4 * j + 3, 4 * j + 1, 4 * j + 2][k]?) ∧
    (∀ (gs : List (Nat × Bitmap)) W H, 16385 ≤ gs.length →
      ∀ k, k < 6 →
        (font.buildAtlasParts W H 0 gs).2.1[6 * 16384 + k]? =
          (font.buildAtlasParts W H 0 gs).2.1[6 * 0 + k]?) := by
  refine ⟨rfl, fun i hi => glyphIndices_small i hi, ?_, ?_⟩
  · intro face size chars f h hsmall j k hk hj
    obtain ⟨glyphs, W, H, hl, hw, hh, hf⟩ := font_new_ok_inv face size chars f h
    subst hf
    have hjlen : j < glyphs.length := by
      rw [loadGlyphs_length face chars glyphs hl]
      exact hj
    have hget := buildAtlasParts_idx_get W H glyphs 0 j k hjlen hk
    simp only [Nat.zero_add] at hget
    rw [hget, glyphIndices_small j (by omega)]
  · intro gs W H hlen k hk
    have h1 := buildAtlasParts_idx_get W H gs 0 16384 k (by omega) hk
    have h2 := buildAtlasParts_idx_get W H gs 0 0 k (by omega) hk
    simp only [Nat.zero_add] at h1 h2
    rw [h1, h2]
    have : font.glyphIndices 16384 = font.glyphIndices 0 := by decide
    rw [this]

/-- Witness for **C9**: the exactness part at the concrete 2-glyph `faceB`
construction (`j = 1, k = 2`, index value 7) and the aliasing part at the
16385-glyph fixture. -/
theorem c9_index_u16_witness :
    ((font.Font.new faceB 12 [97, 98]).2 = .ok fontB ∧
     fontB.indices[6 * 1 + 2]? = [4, 5, 7, 7, 5, 6][2]?) ∧
    (16385 ≤ gsBig.length ∧
     (font.buildAtlasParts 1 1 0 gsBig).2.1[6 * 16384 + 0]? =
       (font.buildAtlasParts 1 1 0 gsBig).2.1[6 * 0 + 0]?) := by
  have h := c9_index_u16
  refine ⟨⟨rfl, ?_⟩, ⟨by simp only [gsBig, List.length_replicate]; omega, ?_⟩⟩
  · have := h.2.2.1 faceB 12 [97, 98] fontB rfl (by decide) 1 2 (by decide) (by decide)
    simpa using this
  · exact h.2.2.2 gsBig 1 1 (by simp only [gsBig, List.length_replicate]; omega) 0 (by decide)

/-- **C3** counterexample: the `font.rs` draw routine computes the per-glyph
translation without any bearing term.  Over `faceA` (whose glyph has bearings
`left = 5`, `top = 3`) and a shaped run with offset `(128, 192)` (2, 3 in
pixels), the routine emits translation `(2, 3)`, which differs from the
claimed placement `pen + (left, −top) + (x_offset/64, y_offset/64) = (7, 0)`. -/
theorem c3_no_bearing_cex :
    (font.Font.new faceA 12 [97]).2 = .ok fontA ∧
    ((faceA.loadChar 97).map fun g => (g.left, g.top)) = some (5, 3) ∧
    (font.drawText fontA shapedA).1 = [⟨(0, 6), (2, 3), WHITE⟩] ∧
    ((2 : ℚ), (3 : ℚ)) ≠
      ((penAt shapedA 0).1 + (5 : ℚ) + i26dot6_to_fpoint 128,
       (penAt shapedA 0).2 + (-3 : ℚ) + i26dot6_to_fpoint 192) := by
  have hl : lookupLast fontA.glyphMapList 97 = some (0, 6) := by decide
  refine ⟨rfl, by decide, ?_, ?_⟩
  · simp only [shapedA, font.drawText, font.drawLoop, hl]
    norm_num [i26dot6_to_fpoint, WHITE]
  · simp only [penAt, shapedA, List.take_zero, List.map_nil, List.sum_nil,
      i26dot6_to_fpoint, Prod.mk.injEq, ne_eq, not_and]
    norm_num

/-- **C3** (amended): in the `text_renderer.rs` draw routine the `j`-th
per-glyph placement (the `glyph_offset` push constant) equals
`pen + bearing + (x_offset/64, y_offset/64)`, where the bearing stored in the
(spec-modelled) lookup table is `(left, −top)` of the glyph's rasterized
bitmap; the older `font.rs` draw routine omits the bearing: its `j`-th
per-glyph translation equals `pen + (x_offset/64, y_offset/64)`. -/
theorem c3_draw_offset_amended :
    (∀ (glyphs : List (Nat × FtGlyph)) (gid : Nat) (e : text_renderer.GlyphEntry),
      (text_renderer.buildFont glyphs).glyphInfo gid = some e →
      ∃ i fg, glyphs[i]? = some (gid, fg) ∧
        e = ⟨(6 * i, 6 * i + 6), ((fg.left : ℚ), (-fg.top : ℚ))⟩) ∧
    (∀ (f : text_renderer.Font) (shaped : List ShapedGlyph) (j : Nat)
      (g : ShapedGlyph) (e : text_renderer.GlyphEntry),
      shaped[j]? = some g →
      (∀ k gk, k < j → shaped[k]? = some gk → (f.glyphInfo gk.glyphId).isSome) →
      f.glyphInfo g.glyphId = some e →
      ∃ cmd, ((text_renderer.drawText f shaped).1)[j]? = some cmd ∧
        cmd.indexRange = e.indexRange ∧ cmd.color = WHITE ∧
        cmd.glyphOffset.1 =
          (penAt shaped j).1 + e.bearing.1 + i26dot6_to_fpoint g.xOffset ∧
        cmd.glyphOffset.2 =
          (penAt shaped j).2 + e.bearing.2 + i26dot6_to_fpoint g.yOffset) ∧
    (∀ (f : font.Font) (shaped : List ShapedGlyph) (j : Nat) (g : ShapedGlyph)
      (rng : Nat × Nat),
      shaped[j]? = some g →
      (∀ k gk, k < j → shaped[k]? = some gk →
        (lookupLast f.glyphMapList gk.glyphId).isSome) →
      lookupLast f.glyphMapList g.glyphId = some rng →
      ∃ cmd, ((font.drawText f shaped).1)[j]? = some cmd ∧
        cmd.indexRange = rng ∧ cmd.color = WHITE ∧
        cmd.translation.1 = (penAt shaped j).1 + i26dot6_to_fpoint g.xOffset ∧
        cmd.translation.2 = (penAt shaped j).2 + i26dot6_to_fpoint g.yOffset) := by
  refine ⟨?_, ?_, ?_⟩
  · intro glyphs gid e h
    obtain ⟨j, fg, hj, he⟩ :=
      buildEntries_lookup glyphs 0 gid e (by simpa [text_renderer.buildFont,
        text_renderer.Font.glyphInfo] using h)
    exact ⟨j, fg, hj, by simpa using he⟩
  · intro f shaped j g e hj hpre he
    obtain ⟨cmd, hcmd, hrng, hcol, hx, hy⟩ :=
      tr_drawLoop_get f shaped (0, 0) j g e hj hpre he
    exact ⟨cmd, hcmd, hrng, hcol, by simpa using hx, by simpa using hy⟩
  · intro f shaped j g rng hj hpre he
    obtain ⟨cmd, hcmd, hrng, hcol, hx, hy⟩ :=
      f_drawLoop_get f shaped (0, 0) j g rng hj hpre he
    exact ⟨cmd, hcmd, hrng, hcol, by simpa using hx, by simpa using hy⟩

/-- Witness for **C3** (amended) at concrete inputs: the spec-modelled table
over `glyphsW` stores bearing `(5, −3)` for glyph id 68, the `text_renderer.rs`
routine places that glyph at `pen + (5, −3) + (2, 3)`, and the `font.rs`
routine places glyph id 97 of `fontA` at `pen + (2, 3)`. -/
theorem c3_draw_offset_amended_witness :
    ((text_renderer.buildFont glyphsW).glyphInfo 68 = some ⟨(0, 6), (5, -3)⟩ ∧
     shapedW[0]? = some ⟨68, 64, 0, 128, 192⟩ ∧
     lookupLast fontA.glyphMapList 97 = some (0, 6) ∧
     shapedA[0]? = some ⟨97, 64, 0, 128, 192⟩) ∧
    (∃ i fg, glyphsW[i]? = some (68, fg) ∧
      (⟨(0, 6), (5, -3)⟩ : text_renderer.GlyphEntry) =
        ⟨(6 * i, 6 * i + 6), ((fg.left : ℚ), (-fg.top : ℚ))⟩) ∧
    (∃ cmd, ((text_renderer.drawText (text_renderer.buildFont glyphsW) shapedW).1)[0]? =
        some cmd ∧
      cmd.indexRange = (0, 6) ∧ cmd.color = WHITE ∧
      cmd.glyphOffset.1 = (penAt shapedW 0).1 + (5 : ℚ) + i26dot6_to_fpoint 128 ∧
      cmd.glyphOffset.2 = (penAt shapedW 0).2 + (-3 : ℚ) + i26dot6_to_fpoint 192) ∧
    (∃ cmd, ((font.drawText fontA shapedA).1)[0]? = some cmd ∧
      cmd.indexRange = (0, 6) ∧ cmd.color = WHITE ∧
      cmd.translation.1 = (penAt shapedA 0).1 + i26dot6_to_fpoint 128 ∧
      cmd.translation.2 = (penAt shapedA 0).2 + i26dot6_to_fpoint 192) := by
  have h := c3_draw_offset_amended
  refine ⟨⟨by decide, by decide, by decide, by decide⟩, ?_, ?_, ?_⟩
  · exact h.1 glyphsW 68 ⟨(0, 6), (5, -3)⟩ (by decide)
  · exact h.2.1 (text_renderer.buildFont glyphsW) shapedW 0 ⟨68, 64, 0, 128, 192⟩
      ⟨(0, 6), (5, -3)⟩ (by decide) (fun k gk hk _ => absurd hk (by omega)) (by decide)
  · exact h.2.2 fontA shapedA 0 ⟨97, 64, 0, 128, 192⟩ (0, 6)
      (by decide) (fun k gk hk _ => absurd hk (by omega)) (by decide)

/-- **C8**: in both draw routines, a shaped glyph id with no lookup-table
entry is fatal exactly at that glyph: the loop reports the failure naming that
id, no draw is issued for it or any later glyph (no retry), and the draws
already issued for the preceding glyphs — one per glyph — stand. -/
theorem c8_missing_glyph_fatal :
    (∀ (f : text_renderer.Font) (pre rest : List ShapedGlyph) (bad : ShapedGlyph),
      (∀ g ∈ pre, (f.glyphInfo g.glyphId).isSome) →
      f.glyphInfo bad.glyphId = none →
      (text_renderer.drawText f (pre ++ bad :: rest)).2 =
        some (.glyphInfoPanic bad.glyphId) ∧
      (text_renderer.drawText f (pre ++ bad :: rest)).1 =
        (text_renderer.drawText f pre).1 ∧
      (text_renderer.drawText f pre).1.length = pre.length ∧
      (text_renderer.drawText f pre).2 = none) ∧
    (∀ (f : font.Font) (pre rest : List ShapedGlyph) (bad : ShapedGlyph),
      (∀ g ∈ pre, (lookupLast f.glyphMapList g.glyphId).isSome) →
      lookupLast f.glyphMapList bad.glyphId = none →
      (font.drawText f (pre ++ bad :: rest)).2 = some (.glyphMapPanic bad.glyphId) ∧
      (font.drawText f (pre ++ bad :: rest)).1 = (font.drawText f pre).1 ∧
      (font.drawText f pre).1.length = pre.length ∧
      (font.drawText f pre).2 = none) := by
  constructor
  · intro f pre rest bad hall hbad
    have hs := tr_drawLoop_split f bad hbad pre rest (0, 0) hall
    have ho := tr_drawLoop_all_ok f pre (0, 0) hall
    exact ⟨hs.2, hs.1, ho.2, ho.1⟩
  · intro f pre rest bad hall hbad
    have hs := f_drawLoop_split f bad hbad pre rest (0, 0) hall
    have ho := f_drawLoop_all_ok f pre (0, 0) hall
    exact ⟨hs.2, hs.1, ho.2, ho.1⟩

/-- Witness for **C8** at concrete runs: glyph id 69 is missing from the table
over `glyphsW` (`text_renderer.rs`) and glyph id 68 is missing from `fontA`'s
map (`font.rs`); in both cases the draw fails at that glyph after drawing the
one preceding glyph. -/
theorem c8_missing_glyph_fatal_witness :
    ((∀ g ∈ shapedW, ((text_renderer.buildFont glyphsW).glyphInfo g.glyphId).isSome) ∧
     (text_renderer.buildFont glyphsW).glyphInfo 69 = none ∧
     (∀ g ∈ shapedA, (lookupLast fontA.glyphMapList g.glyphId).isSome) ∧
     lookupLast fontA.glyphMapList 68 = none) ∧
    ((text_renderer.drawText (text_renderer.buildFont glyphsW)
        (shapedW ++ (⟨69, 0, 0, 0, 0⟩ : ShapedGlyph) :: [])).2 =
      some (.glyphInfoPanic 69) ∧
     (text_renderer.drawText (text_renderer.buildFont glyphsW) shapedW).1.length = 1) ∧
    ((font.drawText fontA (shapedA ++ (⟨68, 0, 0, 0, 0⟩ : ShapedGlyph) :: [])).2 =
      some (.glyphMapPanic 68) ∧
     (font.drawText fontA shapedA).1.length = 1) := by
  have h := c8_missing_glyph_fatal
  have h1 := h.1 (text_renderer.buildFont glyphsW) shapedW [] ⟨69, 0, 0, 0, 0⟩
    (by decide) (by decide)
  have h2 := h.2 fontA shapedA [] ⟨68, 0, 0, 0, 0⟩ (by decide) (by decide)
  exact ⟨⟨by decide, by decide, by decide, by decide⟩,
    ⟨h1.1, h1.2.2.1⟩, ⟨h2.1, h2.2.2.1⟩⟩

/-- **C10**: in both draw routines, every emitted per-glyph push constant
carries color `WHITE` (opaque white), for every font, every shaped run and
every transform — the `draw_text` interfaces take no color parameter and the
emitted color does not depend on any input. -/
theorem c10_color_always_white :
    (∀ (f : text_renderer.Font) (shaped : List ShapedGlyph)
       (cmd : text_renderer.DrawCmd),
      cmd ∈ (text_renderer.drawText f shaped).1 → cmd.color = WHITE) ∧
    (∀ (f : font.Font) (shaped : List ShapedGlyph) (cmd : font.DrawCmd),
      cmd ∈ (font.drawText f shaped).1 → cmd.color = WHITE) :=
  ⟨fun f shaped cmd h => tr_drawLoop_color f shaped (0, 0) cmd h,
   fun f shaped cmd h => f_drawLoop_color f shaped (0, 0) cmd h⟩

/-- Witness for **C10** at concrete draws: the single command emitted for
`shapedW` over the `glyphsW` table and the single command emitted for
`shapedA` over `fontA` both carry color `WHITE`. -/
theorem c10_color_always_white_witness :
    (∃ cmd, cmd ∈ (text_renderer.drawText (text_renderer.buildFont glyphsW) shapedW).1 ∧
      cmd.color = WHITE) ∧
    (∃ cmd, cmd ∈ (font.drawText fontA shapedA).1 ∧ cmd.color = WHITE) := by
  have h := c10_color_always_white
  constructor
  · have hlen :
        (text_renderer.drawText (text_renderer.buildFont glyphsW) shapedW).1.length = 1 := by
      have := (tr_drawLoop_all_ok (text_renderer.buildFont glyphsW) shapedW (0, 0)
        (by decide)).2
      simpa [shapedW, text_renderer.drawText] using this
    have hpos :
        0 < (text_renderer.drawText (text_renderer.buildFont glyphsW) shapedW).1.length := by
      omega
    have hmem := List.getElem_mem hpos
    exact ⟨_, hmem, h.1 (text_renderer.buildFont glyphsW) shapedW _ hmem⟩
  · have hlen : (font.drawText fontA shapedA).1.length = 1 := by
      have := (f_drawLoop_all_ok fontA shapedA (0, 0) (by decide)).2
      simpa [shapedA, font.drawText] using this
    have hpos : 0 < (font.drawText fontA shapedA).1.length := by omega
    have hmem := List.getElem_mem hpos
    exact ⟨_, hmem, h.2 fontA shapedA _ hmem⟩

end RaeText
